import Mathlib

/-!
Verification development for the `ocrmyimg` repository.

The repository's `src/` tree contains a single Rust file,
`src/app/src-tauri/src/main.rs`, whose `main` function unconditionally
delegates to the external `gui_lib::run()`.  The OCR core described by the
specification (pipeline stages, `JobDispatcher`, data model) is not present
under `src/`; following the specification, the definitions below model those
missing parts from the spec's own words.  Each such definition carries a doc
comment beginning `Modelled from the spec:`.
-/

namespace OcrCore

/-! ## Job states and the dispatcher state machine -/

/-- Modelled from the spec: the `Job` states of §3,
`Queued, Preprocessing, Segmenting, Recognizing, Aggregating, Completed,
Cancelled, Failed` (the `JobDispatcher` code is missing from `src/`). -/
inductive JobState
  | Queued
  | Preprocessing
  | Segmenting
  | Recognizing
  | Aggregating
  | Completed
  | Cancelled
  | Failed
  deriving DecidableEq, Repr

/-- Modelled from the spec: the terminal states are
`Completed`, `Cancelled` and `Failed` (§4.5, §6). -/
def JobState.isTerminal : JobState → Bool
  | .Completed => true
  | .Cancelled => true
  | .Failed => true
  | _ => false

/-- Position of a state along the pipeline chain
`Queued → Preprocessing → Segmenting → Recognizing → Aggregating → Completed`,
with the two exceptional terminal states placed after `Completed`. -/
def JobState.rank : JobState → Nat
  | .Queued => 0
  | .Preprocessing => 1
  | .Segmenting => 2
  | .Recognizing => 3
  | .Aggregating => 4
  | .Completed => 5
  | .Cancelled => 6
  | .Failed => 7

/-- Modelled from the spec: the state machine of §4.5,
`Queued → Preprocessing → Segmenting → Recognizing → Aggregating → Completed`,
with `Cancelled`/`Failed` reachable from any non-terminal state. -/
def validTransition : JobState → JobState → Bool
  | .Queued, .Preprocessing => true
  | .Preprocessing, .Segmenting => true
  | .Segmenting, .Recognizing => true
  | .Recognizing, .Aggregating => true
  | .Aggregating, .Completed => true
  | s, .Cancelled => !s.isTerminal
  | s, .Failed => !s.isTerminal
  | _, _ => false

/-- A trace of states a job passes through: consecutive states are related by
`validTransition`. -/
def validTrace : List JobState → Bool
  | [] => true
  | [_] => true
  | a :: b :: rest => validTransition a b && validTrace (b :: rest)

/-- `validTrace` is exactly `List.Chain'` of `validTransition`. -/
lemma validTrace_iff_chain (tr : List JobState) :
    validTrace tr = true ↔
      List.Chain' (fun a b => validTransition a b = true) tr := by
  match tr with
  | [] => simp [validTrace]
  | [a] => simp [validTrace]
  | a :: b :: rest =>
    simp [validTrace, List.chain'_cons, validTrace_iff_chain (b :: rest),
      and_comm]

/-- Every valid transition strictly increases the rank. -/
lemma validTransition_rank_lt (s t : JobState)
    (h : validTransition s t = true) : s.rank < t.rank := by
  cases s <;> cases t <;> simp_all [validTransition, JobState.isTerminal,
    JobState.rank]

/-- Terminal states have no outgoing transitions. -/
lemma terminal_no_step (s t : JobState) (hs : s.isTerminal = true) :
    validTransition s t = false := by
  cases s <;> cases t <;> simp_all [validTransition, JobState.isTerminal]

/-- Along a valid trace, ranks are strictly increasing pairwise. -/
lemma validTrace_rank_pairwise (tr : List JobState) (h : validTrace tr = true) :
    tr.Pairwise (fun a b => a.rank < b.rank) := by
  haveI : IsTrans JobState (fun a b => a.rank < b.rank) :=
    ⟨fun _ _ _ => Nat.lt_trans⟩
  exact List.chain'_iff_pairwise.mp
    (((validTrace_iff_chain tr).mp h).imp
      (fun a b hab => validTransition_rank_lt a b hab))

/-- C1. For every Job, the sequence of states it passes through is monotonic
along `Queued, Preprocessing, Segmenting, Recognizing, Aggregating,
Completed` — no state is ever revisited — and the only exceptions are
transitions into the terminal states `Cancelled`/`Failed`, which may be taken
from any non-terminal state: along any trace obeying the dispatcher's
transition relation, the state rank strictly increases (hence no state
repeats), every transition is either the next pipeline step or a jump to
`Cancelled`/`Failed`, and such a jump is allowed exactly from the
non-terminal states. -/
theorem jobState_trace_monotone_no_revisit (tr : List JobState)
    (h : validTrace tr = true) :
    tr.Pairwise (fun a b => a.rank < b.rank) ∧ tr.Nodup ∧
    (∀ s t : JobState, validTransition s t = true →
      (t.rank = s.rank + 1 ∧ t ≠ .Cancelled ∧ t ≠ .Failed) ∨
      ((t = .Cancelled ∨ t = .Failed) ∧ s.isTerminal = false)) ∧
    (∀ s : JobState, s.isTerminal = false →
      validTransition s .Cancelled = true ∧ validTransition s .Failed = true) := by
  refine ⟨validTrace_rank_pairwise tr h, ?_, ?_, ?_⟩
  · exact (validTrace_rank_pairwise tr h).imp (fun hab => by
      intro hEq; exact absurd (congrArg JobState.rank hEq) (Nat.ne_of_lt hab))
  · intro s t hst
    cases s <;> cases t <;> simp_all [validTransition, JobState.isTerminal,
      JobState.rank]
  · intro s hs
    cases s <;> simp_all [validTransition, JobState.isTerminal]

/-- Witness for C1 at the concrete trace
`[Queued, Preprocessing, Segmenting, Cancelled]`. -/
theorem jobState_trace_monotone_no_revisit_witness :
    validTrace [JobState.Queued, JobState.Preprocessing,
      JobState.Segmenting, JobState.Cancelled] = true ∧
    [JobState.Queued, JobState.Preprocessing,
      JobState.Segmenting, JobState.Cancelled].Nodup :=
  ⟨by decide,
    (jobState_trace_monotone_no_revisit _ (by decide)).2.1⟩

/-! ## Data model of the pipeline -/

/-- Modelled from the spec: `RawImage` (§3) — immutable byte buffer plus
width/height/channel metadata.  Bytes are modelled as naturals below 256. -/
structure RawImage where
  bytes : List Nat
  width : Nat
  height : Nat
  channels : Nat
  deriving DecidableEq, Repr

/-- Modelled from the spec: grayscale conversion method option (§4.1). -/
inductive GrayscaleMethod
  | luminance
  | average
  deriving DecidableEq, Repr

/-- Modelled from the spec: binarization threshold strategy option (§4.1). -/
inductive ThresholdStrategy
  | adaptive
  | fixed
  deriving DecidableEq, Repr

/-- Modelled from the spec: preprocessing options (§4.1):
`{grayscale_method, binarize with threshold strategy, deskew,
denoise_strength}`. -/
structure PreprocessOptions where
  grayscaleMethod : GrayscaleMethod
  binarize : Bool
  thresholdStrategy : ThresholdStrategy
  deskew : Bool
  denoiseStrength : Nat
  deriving DecidableEq, Repr

/-- Default preprocessing options. -/
def defaultOptions : PreprocessOptions :=
  { grayscaleMethod := .luminance, binarize := true,
    thresholdStrategy := .fixed, deskew := false, denoiseStrength := 0 }

/-- Modelled from the spec: `NormalizedImage` (§3) — single-channel intensity
grid in canonical orientation, row-major. -/
structure NormalizedImage where
  width : Nat
  height : Nat
  pixels : List (List Nat)
  deriving DecidableEq, Repr

/-- Modelled from the spec: the error kinds of §7. -/
inductive ErrorKind
  | DecodeError
  | DimensionError
  | RecognizerUnavailable
  | Timeout
  deriving DecidableEq, Repr

/-- PNG file signature bytes. -/
def pngSignature : List Nat := [137, 80, 78, 71, 13, 10, 26, 10]

/-- JPEG file signature bytes. -/
def jpegSignature : List Nat := [255, 216, 255]

/-- Modelled from the spec: a byte buffer is a supported image encoding when
it begins with the signature of a supported format (PNG or JPEG). -/
def isSupportedEncoding (bytes : List Nat) : Bool :=
  pngSignature.isPrefixOf bytes || jpegSignature.isPrefixOf bytes

/-- Combine one pixel's channel samples into a single intensity (§4.1):
`luminance` uses the Rec. 601 weights, `average` the arithmetic mean. -/
def grayscalePixel (m : GrayscaleMethod) (chans : List Nat) : Nat :=
  match m, chans with
  | _, [] => 0
  | .luminance, [r, g, b] => (299 * r + 587 * g + 114 * b) / 1000
  | .luminance, cs => cs.headD 0
  | .average, cs => cs.sum / cs.length

/-- Decode the payload of a supported buffer into a `height × width` grid of
channel samples and convert each pixel to a single gray intensity. -/
def decodeGray (m : GrayscaleMethod) (r : RawImage) : List (List Nat) :=
  (List.range r.height).map (fun row =>
    (List.range r.width).map (fun col =>
      grayscalePixel m
        ((List.range (max r.channels 1)).map (fun ch =>
          r.bytes.getD
            (pngSignature.length + (row * r.width + col) * max r.channels 1 + ch)
            255 % 256))))

/-- Fixed binarization threshold (§4.1, `fixed` strategy). -/
def fixedThreshold : Nat := 128

/-- Adaptive binarization threshold (§4.1): the mean intensity of the grid. -/
def adaptiveThreshold (grid : List (List Nat)) : Nat :=
  let total := (grid.map List.sum).sum
  let count := (grid.map List.length).sum
  if count = 0 then fixedThreshold else total / count

/-- Binarize a grid: intensities below the threshold become 0 (ink), the rest
become 255 (background). -/
def binarizeGrid (strat : ThresholdStrategy) (grid : List (List Nat)) :
    List (List Nat) :=
  let t := match strat with
    | .fixed => fixedThreshold
    | .adaptive => adaptiveThreshold grid
  grid.map (fun row => row.map (fun p => if p < t then 0 else 255))

/-- One noise-reduction pass: a pixel keeps its value only if some horizontal
neighbour agrees that it is ink; isolated dark pixels are lifted to
background. -/
def denoiseOnce (grid : List (List Nat)) : List (List Nat) :=
  grid.map (fun row =>
    (List.range row.length).map (fun c =>
      let p := row.getD c 255
      if p < fixedThreshold &&
          !(row.getD (c - 1) 255 < fixedThreshold && c ≠ 0) &&
          !(row.getD (c + 1) 255 < fixedThreshold) then 255 else p))

/-- `denoise_strength` many noise-reduction passes (§4.1). -/
def denoiseGrid : Nat → List (List Nat) → List (List Nat)
  | 0, grid => grid
  | n + 1, grid => denoiseGrid n (denoiseOnce grid)

/-- Modelled from the spec: `normalize(RawImage, options) -> NormalizedImage`
(§4.1): fails with `DecodeError` if the byte buffer is not a supported image
encoding, with `DimensionError` if width or height is zero; otherwise decodes,
converts to grayscale, optionally binarizes, and denoises.  Deskew is a
no-op here: the dominant-angle estimate of an already canonical grid is zero,
so the clamped rotation is the identity. -/
def normalize (opts : PreprocessOptions) (r : RawImage) :
    Except ErrorKind NormalizedImage :=
  if !isSupportedEncoding r.bytes then .error .DecodeError
  else if r.width = 0 || r.height = 0 then .error .DimensionError
  else
    let gray := decodeGray opts.grayscaleMethod r
    let binz := if opts.binarize then binarizeGrid opts.thresholdStrategy gray
      else gray
    .ok { width := r.width, height := r.height,
          pixels := denoiseGrid opts.denoiseStrength binz }

/-- Modelled from the spec: `Job` (§3) — identifier, current state, owning
`RawImage`, and a cancellation flag. -/
structure Job where
  id : Nat
  state : JobState
  image : RawImage
  cancelRequested : Bool
  deriving DecidableEq, Repr

/-- Modelled from the spec: §7 — a stage-level failure marks the owning job
`Failed` and schedules no retry (the returned flag is whether a retry is
scheduled). -/
def handleStageFailure (j : Job) (e : ErrorKind) : Job × Bool :=
  match e with
  | _ => ({ j with state := .Failed }, false)

/-- A raw image whose byte buffer is not a supported encoding and whose
width metadata is zero: both failure conditions of §4.1 hold at once. -/
def clashImage : RawImage :=
  { bytes := [0, 1, 2], width := 0, height := 1, channels := 1 }

/-- C2 (counterexample). The claim says `normalize` "fails with
`DimensionError` exactly when the image's width or height is zero"; on an
image whose buffer is also undecodable this fails: `clashImage` has width 0,
yet `normalize` reports `DecodeError`, not `DimensionError`. -/
theorem normalize_dimension_iff_false :
    clashImage.width = 0 ∧
    normalize defaultOptions clashImage = .error .DecodeError ∧
    normalize defaultOptions clashImage ≠ .error .DimensionError := by
  refine ⟨rfl, rfl, ?_⟩
  intro h
  rw [show normalize defaultOptions clashImage = .error .DecodeError from rfl]
    at h
  exact absurd (Except.error.inj h) (by decide)

/-- C2 (amended). `normalize` fails with `DecodeError` exactly when the byte
buffer is not a supported image encoding, and fails with `DimensionError`
exactly when the buffer is a supported encoding and the width or height is
zero (an undecodable buffer is reported as `DecodeError` even if a dimension
is also zero); in both cases the owning job is marked `Failed` and is not
retried. -/
theorem normalize_error_classification (opts : PreprocessOptions)
    (r : RawImage) (j : Job) :
    (normalize opts r = .error .DecodeError ↔
      isSupportedEncoding r.bytes = false) ∧
    (normalize opts r = .error .DimensionError ↔
      isSupportedEncoding r.bytes = true ∧ (r.width = 0 ∨ r.height = 0)) ∧
    (handleStageFailure j .DecodeError).1.state = .Failed ∧
    (handleStageFailure j .DecodeError).2 = false ∧
    (handleStageFailure j .DimensionError).1.state = .Failed ∧
    (handleStageFailure j .DimensionError).2 = false := by
  have hcases : isSupportedEncoding r.bytes = false ∨
      isSupportedEncoding r.bytes = true := by
    cases isSupportedEncoding r.bytes
    · exact Or.inl rfl
    · exact Or.inr rfl
  refine ⟨?_, ?_, rfl, rfl, rfl, rfl⟩ <;>
    rcases hcases with hs | hs <;>
    by_cases hw : r.width = 0 <;> by_cases hh : r.height = 0 <;>
    simp [normalize, hs, hw, hh]

/-! ## Layout segmentation -/

/-- Intensity below which a (binarized) pixel counts as ink. -/
def inkThreshold : Nat := 128

/-- Whether a pixel row contains any ink. -/
def rowHasInk (row : List Nat) : Bool :=
  row.any (fun p => decide (p < inkThreshold))

/-- Maximal runs of `true` in a flag list, as `(start, length)` pairs;
`i` is the index of the next flag and the accumulator holds the run in
progress. -/
def runsAux : List Bool → Nat → Option (Nat × Nat) → List (Nat × Nat)
  | [], _, none => []
  | [], _, some r => [r]
  | b :: rest, i, none =>
    if b then runsAux rest (i + 1) (some (i, 1)) else runsAux rest (i + 1) none
  | b :: rest, i, some (s, n) =>
    if b then runsAux rest (i + 1) (some (s, n + 1))
    else (s, n) :: runsAux rest (i + 1) none

/-- Maximal runs of `true` in a flag list. -/
def runs (flags : List Bool) : List (Nat × Nat) := runsAux flags 0 none

/-- A rectangle: origin plus width and height (§3, `TextRegion`). -/
structure Rect where
  x : Nat
  y : Nat
  w : Nat
  h : Nat
  deriving DecidableEq, Repr

/-- Modelled from the spec: region kind `line`/`word`/`block` (§3). -/
inductive RegionKind
  | word
  | line
  | block
  deriving DecidableEq, Repr

/-- Modelled from the spec: `TextRegion` (§3) — a rectangle, a region kind and
a reading-order index. -/
structure TextRegion where
  rect : Rect
  kind : RegionKind
  index : Nat
  deriving DecidableEq, Repr

/-- Horizontal projection profile: the maximal bands of consecutive rows
containing ink, top to bottom — the text lines of the page (§4.2). -/
def lineBands (img : NormalizedImage) : List (Nat × Nat) :=
  runs (img.pixels.map rowHasInk)

/-- Vertical projection profile within one line band: maximal runs of
ink-bearing columns, left to right — the word boxes of the line (§4.2). -/
def wordRects (img : NormalizedImage) (band : Nat × Nat) : List Rect :=
  let rows := (img.pixels.drop band.1).take band.2
  let colFlags := (List.range img.width).map (fun c =>
    rows.any (fun row => decide (row.getD c 255 < inkThreshold)))
  (runs colFlags).map (fun wr =>
    { x := wr.1, y := band.1, w := wr.2, h := band.2 })

/-- Modelled from the spec: `segment(NormalizedImage) -> ordered sequence of
TextRegion` (§4.2) — projection-profile detection groups pixels into word
boxes inside top-to-bottom line bands, emitting word regions in reading order
(top-to-bottom, then left-to-right) with sequentially assigned reading-order
indices; a blank image yields the empty sequence, never an error. -/
def segment (img : NormalizedImage) : List TextRegion :=
  ((lineBands img).flatMap (wordRects img)).enum.map (fun p =>
    { rect := p.2, kind := .word, index := p.1 })

/-- A normalized image is blank when no row contains ink. -/
def isBlank (img : NormalizedImage) : Bool :=
  !(img.pixels.any rowHasInk)

/-- Running `normalize` and then `segment`, propagating `normalize`'s
errors (§8, first testable property). -/
def normalizeThenSegment (opts : PreprocessOptions) (r : RawImage) :
    Except ErrorKind (List TextRegion) :=
  (normalize opts r).map segment

/-- Whether a pipeline result is a success. -/
def resultIsOk : Except ErrorKind (List TextRegion) → Bool
  | .ok _ => true
  | .error _ => false

/-- `runsAux` on flags that are all `false`, with no run in progress,
produces nothing. -/
lemma runsAux_all_false (flags : List Bool)
    (h : ∀ b ∈ flags, b = false) : ∀ i, runsAux flags i none = [] := by
  induction flags with
  | nil => intro i; rfl
  | cons b rest ih =>
    intro i
    have hb : b = false := h b (List.mem_cons_self b rest)
    have hrest : ∀ x ∈ rest, x = false := fun x hx =>
      h x (List.mem_cons_of_mem b hx)
    simp [runsAux, hb, ih hrest]

/-- A blank image has no line bands. -/
lemma lineBands_blank (img : NormalizedImage) (h : isBlank img = true) :
    lineBands img = [] := by
  have h2 : ∀ row ∈ img.pixels, rowHasInk row = false := by
    intro row hrow
    have := (List.any_eq_false).mp (by simpa [isBlank] using h)
    simpa using this row hrow
  refine runsAux_all_false _ ?_ 0
  intro b hb
  rcases List.mem_map.mp hb with ⟨row, hrow, hEq⟩
  rw [← hEq]
  exact h2 row hrow

/-- C3. `segment` is a total function on `NormalizedImage` (it never fails),
a blank image yields the empty region sequence rather than an error, and
`normalize` followed by `segment` succeeds on every valid `RawImage`
(supported encoding, nonzero dimensions). -/
theorem segment_total_blank_empty :
    (∀ opts : PreprocessOptions, ∀ r : RawImage,
      isSupportedEncoding r.bytes = true → r.width ≠ 0 → r.height ≠ 0 →
      resultIsOk (normalizeThenSegment opts r) = true) ∧
    (∀ img : NormalizedImage, isBlank img = true → segment img = []) := by
  constructor
  · intro opts r hs hw hh
    simp [normalizeThenSegment, normalize, hs, hw, hh, resultIsOk,
      Except.map]
  · intro img h
    simp [segment, lineBands_blank img h]

/-- A concrete valid raw image: PNG signature followed by payload bytes. -/
def validRaw : RawImage :=
  { bytes := pngSignature ++ [0, 64, 200, 255], width := 2, height := 2,
    channels := 1 }

/-- A concrete blank (all-white) normalized image. -/
def whiteImage : NormalizedImage :=
  { width := 2, height := 2, pixels := [[255, 255], [255, 255]] }

/-- Witness for C3: the pipeline succeeds on `validRaw` and segmenting the
blank `whiteImage` yields no regions. -/
theorem segment_total_blank_empty_witness :
    resultIsOk (normalizeThenSegment defaultOptions validRaw) = true ∧
    segment whiteImage = [] :=
  ⟨segment_total_blank_empty.1 defaultOptions validRaw (by decide)
      (by decide) (by decide),
    segment_total_blank_empty.2 whiteImage (by decide)⟩

/-- The reading-order indices of `segment`'s output are exactly
`0, 1, 2, …`. -/
lemma segment_map_index (img : NormalizedImage) :
    (segment img).map TextRegion.index =
      List.range ((lineBands img).flatMap (wordRects img)).length := by
  simp [segment, List.map_map, Function.comp_def]

/-- C4. For every segmentation output, the reading-order indices of the
regions are strictly increasing in emission order and injective (no two
regions share an index). -/
theorem segment_indices_strictMono_injective (img : NormalizedImage) :
    List.Chain' (· < ·) ((segment img).map TextRegion.index) ∧
    ((segment img).map TextRegion.index).Nodup := by
  rw [segment_map_index]
  exact ⟨(List.pairwise_lt_range _).chain', List.nodup_range _⟩

/-! ## Result aggregation -/

/-- Modelled from the spec: `RecognitionCandidate` (§3) — a `TextRegion`
reference, the recognized string, a confidence score in `[0,1]` (a rational
here), and alternates ordered by descending confidence. -/
structure RecognitionCandidate where
  region : TextRegion
  text : String
  confidence : ℚ
  alts : List (String × ℚ)
  deriving DecidableEq, Repr

/-- Modelled from the spec: `OcrDocument` (§3) — the ordered candidates, the
full concatenated text, and the aggregate confidence. -/
structure OcrDocument where
  words : List RecognitionCandidate
  text : String
  confidence : ℚ
  deriving DecidableEq, Repr

/-- Split a list into maximal chunks of consecutive elements related by
`r`. -/
def chunkBy {α : Type} (r : α → α → Bool) : List α → List (List α)
  | [] => []
  | [x] => [[x]]
  | x :: y :: xs =>
    match chunkBy r (y :: xs) with
    | [] => [[x]]
    | c :: cs => if r x y then (x :: c) :: cs else [x] :: c :: cs

/-- Two rectangles overlap vertically. -/
def vertOverlap (a b : Rect) : Bool :=
  decide (a.y < b.y + b.h) && decide (b.y < a.y + a.h)

/-- Two candidates lie on the same text line when their source regions
overlap vertically (§4.2, §4.4: hierarchy implied by the source regions). -/
def sameLine (a b : RecognitionCandidate) : Bool :=
  vertOverlap a.region.rect b.region.rect

/-- Vertical gap threshold separating blocks of lines (§4.2: configurable
gap threshold for line clustering into blocks). -/
def blockGap : Nat := 8

/-- Two consecutive lines belong to the same block when the vertical gap
between them does not exceed `blockGap`. -/
def sameBlock (la lb : List RecognitionCandidate) : Bool :=
  match la, lb with
  | a :: _, b :: _ =>
    decide (b.region.rect.y ≤ a.region.rect.y + a.region.rect.h + blockGap)
  | _, _ => true

/-- Group a candidate sequence into its text lines. -/
def linesOf (cs : List RecognitionCandidate) :
    List (List RecognitionCandidate) :=
  chunkBy sameLine cs

/-- Group the lines of a candidate sequence into blocks. -/
def blocksOf (cs : List RecognitionCandidate) :
    List (List (List RecognitionCandidate)) :=
  chunkBy sameBlock (linesOf cs)

/-- Operational string joining, as an accumulator fold: start from the first
item and fold the separator and each further item onto the buffer. -/
def renderList (sep : String) : List String → String
  | [] => ""
  | s :: rest => rest.foldl (fun acc t => acc ++ sep ++ t) s

/-- Declarative string joining: exactly one separator between consecutive
items — the direct formalization of the spec's concatenation wording. -/
def sepJoin (sep : String) : List String → String
  | [] => ""
  | [s] => s
  | s :: t :: rest => s ++ sep ++ sepJoin sep (t :: rest)

/-- The text of one line: its words' texts joined by single spaces (§4.4). -/
def lineText (l : List RecognitionCandidate) : String :=
  renderList " " (l.map RecognitionCandidate.text)

/-- Running length-weighted confidence sums: the fold accumulates
`(Σ length·confidence, Σ length)` over the words. -/
def confSums (cs : List RecognitionCandidate) : ℚ × ℚ :=
  cs.foldl
    (fun acc c =>
      (acc.1 + (c.text.length : ℚ) * c.confidence,
        acc.2 + (c.text.length : ℚ)))
    (0, 0)

/-- Modelled from the spec: `aggregate(sequence of RecognitionCandidate) ->
OcrDocument` (§4.4) — groups candidates by the hierarchy implied by their
source regions (word→line→block), concatenates text with single spaces
between words and a newline between lines and blocks, and computes the
aggregate confidence as the length-weighted mean of per-word confidences.
The post-correction rule set is configurable and empty by default, so no
substitution is applied here. -/
def aggregate (cs : List RecognitionCandidate) : OcrDocument :=
  let blocks := blocksOf cs
  let s := confSums cs
  { words := cs,
    text := renderList "\n" (blocks.map (fun b =>
      renderList "\n" (b.map lineText))),
    confidence := s.1 / s.2 }

/-- String append is associative. -/
lemma strAppendAssoc (a b c : String) : a ++ b ++ c = a ++ (b ++ c) :=
  String.ext (by simp)

/-- Folding the joining step over a nonempty list appends one separator and
the declaratively joined tail to the buffer. -/
lemma renderFold (sep t : String) (rest : List String) :
    ∀ acc : String,
      (t :: rest).foldl (fun a u => a ++ sep ++ u) acc =
        acc ++ sep ++ sepJoin sep (t :: rest) := by
  induction rest generalizing t with
  | nil => intro acc; simp [sepJoin]
  | cons u rest ih =>
    intro acc
    rw [List.foldl_cons, ih u (acc ++ sep ++ t)]
    simp [sepJoin, strAppendAssoc]

/-- The operational fold-based joining agrees with the declarative
one-separator-between-items joining. -/
lemma renderList_eq_sepJoin (sep : String) (l : List String) :
    renderList sep l = sepJoin sep l := by
  match l with
  | [] => rfl
  | [s] => rfl
  | s :: t :: ts =>
    show (t :: ts).foldl _ s = _
    rw [renderFold sep t ts s]
    rfl

/-- Chunking never loses, duplicates, or reorders elements. -/
lemma chunkBy_flatten {α : Type} (r : α → α → Bool) :
    ∀ l : List α, (chunkBy r l).flatten = l
  | [] => rfl
  | [x] => rfl
  | x :: y :: xs => by
    have ih := chunkBy_flatten r (y :: xs)
    unfold chunkBy
    rcases h : chunkBy r (y :: xs) with _ | ⟨c, cs⟩
    · rw [h] at ih
      simp at ih
    · rw [h] at ih
      simp only [List.flatten_cons] at ih
      by_cases hr : r x y <;> simp [hr, ih]

/-- The confidence fold computes the two length-weighted sums. -/
lemma confSumsAux (cs : List RecognitionCandidate) :
    ∀ a b : ℚ,
      cs.foldl
        (fun acc c =>
          (acc.1 + (c.text.length : ℚ) * c.confidence,
            acc.2 + (c.text.length : ℚ)))
        (a, b) =
      (a + (cs.map (fun c => (c.text.length : ℚ) * c.confidence)).sum,
        b + (cs.map (fun c => (c.text.length : ℚ))).sum) := by
  induction cs with
  | nil => intro a b; simp
  | cons c rest ih => intro a b; simp [ih, add_assoc]

/-- `confSums` is the pair of length-weighted sums over the candidates. -/
lemma confSums_eq (cs : List RecognitionCandidate) :
    confSums cs =
      ((cs.map (fun c => (c.text.length : ℚ) * c.confidence)).sum,
        (cs.map (fun c => (c.text.length : ℚ))).sum) := by
  simpa [confSums] using confSumsAux cs 0 0

/-- The text of a line is its words' texts with single spaces between. -/
lemma lineText_eq :
    lineText = fun l => sepJoin " " (l.map RecognitionCandidate.text) :=
  funext fun l => renderList_eq_sepJoin " " (l.map RecognitionCandidate.text)

/-- C6. For every sequence of RecognitionCandidate, the OcrDocument returned
by `aggregate` has its full text formed by concatenating the candidates' text
with exactly one space between words and a newline between lines and between
blocks (the grouping partitions the input, keeping every candidate exactly
once in order), and its aggregate confidence equals the length-weighted mean
of the per-word confidences. -/
theorem aggregate_text_and_confidence (cs : List RecognitionCandidate) :
    (aggregate cs).text =
      sepJoin "\n" ((blocksOf cs).map (fun b =>
        sepJoin "\n" (b.map (fun l =>
          sepJoin " " (l.map RecognitionCandidate.text))))) ∧
    (blocksOf cs).flatten.flatten = cs ∧
    (aggregate cs).confidence =
      (cs.map (fun c => (c.text.length : ℚ) * c.confidence)).sum /
        (cs.map (fun c => (c.text.length : ℚ))).sum := by
  refine ⟨?_, ?_, ?_⟩
  · simp [aggregate, renderList_eq_sepJoin, lineText_eq]
  · simp [blocksOf, linesOf, chunkBy_flatten]
  · simp [aggregate, confSums_eq]

/-- C5. `aggregate` is a pure, deterministic function of its input: any two
calls on an identical candidate sequence produce OcrDocuments with identical
concatenated text and identical aggregate confidence. -/
theorem aggregate_pure_deterministic
    (cs1 cs2 : List RecognitionCandidate) (h : cs1 = cs2) :
    (aggregate cs1).text = (aggregate cs2).text ∧
    (aggregate cs1).confidence = (aggregate cs2).confidence := by
  subst h
  exact ⟨rfl, rfl⟩

/-- A concrete word region for witnesses. -/
def demoRegion : TextRegion :=
  { rect := { x := 0, y := 0, w := 4, h := 6 }, kind := .word, index := 0 }

/-- A concrete recognition candidate for witnesses. -/
def demoCandidate : RecognitionCandidate :=
  { region := demoRegion, text := "TEST", confidence := 9 / 10, alts := [] }

/-- Witness for C5 at the concrete one-candidate sequence. -/
theorem aggregate_pure_deterministic_witness :
    (aggregate [demoCandidate]).text = (aggregate [demoCandidate]).text ∧
    (aggregate [demoCandidate]).confidence =
      (aggregate [demoCandidate]).confidence :=
  aggregate_pure_deterministic [demoCandidate] [demoCandidate] rfl

/-! ## Job dispatching -/

/-- Modelled from the spec: the dispatcher's shared state (§4.5, §5) — the
concurrency limit, the job table, the identifiers of currently executing
jobs, and the FIFO queue of waiting submissions. -/
structure DispatcherState where
  limit : Nat
  jobs : List Job
  running : List Nat
  queue : List Nat
  deriving DecidableEq, Repr

/-- A dispatcher with no jobs yet, with the given concurrency limit. -/
def emptyDispatcher (limit : Nat) : DispatcherState :=
  { limit := limit, jobs := [], running := [], queue := [] }

/-- Look a job up by identifier. -/
def findJob (st : DispatcherState) (id : Nat) : Option Job :=
  st.jobs.find? (fun j => decide (j.id = id))

/-- Apply `f` to the job with the given identifier. -/
def updateJob (jobs : List Job) (id : Nat) (f : Job → Job) : List Job :=
  jobs.map (fun j => if j.id = id then f j else j)

/-- A freshly submitted job. -/
def mkJob (id : Nat) (s : JobState) (img : RawImage) : Job :=
  { id := id, state := s, image := img, cancelRequested := false }

/-- Modelled from the spec: `submit(RawImage, options) -> JobId` (§4.5, §6) —
assigns a fresh identifier; if a concurrency slot is free the job starts its
first stage immediately (state `Preprocessing`), otherwise it stays `Queued`
at the back of the FIFO queue. -/
def submit (st : DispatcherState) (img : RawImage) : Nat × DispatcherState :=
  let id := st.jobs.length
  if st.running.length < st.limit then
    (id, { st with
      jobs := st.jobs ++ [mkJob id .Preprocessing img],
      running := st.running ++ [id] })
  else
    (id, { st with
      jobs := st.jobs ++ [mkJob id .Queued img],
      queue := st.queue ++ [id] })

/-- Modelled from the spec: `cancel(JobId) -> bool` (§4.5) — `false` for an
unknown identifier or a job already terminal; otherwise a queued job goes
directly to `Cancelled` and leaves the queue, a running job gets its
cancellation flag set (honored at the next stage boundary), and the call
returns `true`. -/
def cancel (st : DispatcherState) (id : Nat) : Bool × DispatcherState :=
  match findJob st id with
  | none => (false, st)
  | some j =>
    if j.state.isTerminal then (false, st)
    else if j.state = .Queued then
      (true, { st with
        jobs := updateJob st.jobs id (fun j2 => { j2 with state := .Cancelled }),
        queue := st.queue.filter (fun q => decide (q ≠ id)) })
    else
      (true, { st with
        jobs := updateJob st.jobs id
          (fun j2 => { j2 with cancelRequested := true }) })

/-- C7. For every JobId, `cancel` returns `true` if and only if the
identified job existed and was in a non-terminal state; it returns `false`
whenever the job is already terminal or the JobId is unknown. -/
theorem cancel_true_iff_nonterminal (st : DispatcherState) (id : Nat) :
    (cancel st id).1 = true ↔
      ∃ j, findJob st id = some j ∧ j.state.isTerminal = false := by
  unfold cancel
  rcases h : findJob st id with _ | j
  · simp
  · by_cases ht : j.state.isTerminal = true
    · simp [ht]
    · have ht2 : j.state.isTerminal = false := by
        cases h2 : j.state.isTerminal
        · rfl
        · exact absurd h2 ht
      by_cases hq : j.state = .Queued
      · simp [hq, JobState.isTerminal]
      · simp [ht2, hq]

/-- The pipeline stages a worker can invoke for a job (§2, §4.5). -/
inductive Stage
  | preprocess
  | segmentation
  | recognition
  | aggregation
  deriving DecidableEq, Repr

/-- Modelled from the spec: one step of a job at a stage boundary (§4.5, §5)
— the cancellation flag is checked first; if set, the job transitions to
`Cancelled` and no stage runs; otherwise the next stage is invoked.  The
returned list holds the stages invoked during the step. -/
def stepJob (j : Job) : Job × List Stage :=
  if j.state.isTerminal then (j, [])
  else if j.cancelRequested then ({ j with state := .Cancelled }, [])
  else
    match j.state with
    | .Queued => ({ j with state := .Preprocessing }, [.preprocess])
    | .Preprocessing => ({ j with state := .Segmenting }, [.segmentation])
    | .Segmenting => ({ j with state := .Recognizing }, [.recognition])
    | .Recognizing => ({ j with state := .Aggregating }, [.aggregation])
    | .Aggregating => ({ j with state := .Completed }, [])
    | _ => (j, [])

/-- Run a job for up to `n` boundary steps, collecting the invoked stages. -/
def runJob : Nat → Job → Job × List Stage
  | 0, j => (j, [])
  | n + 1, j =>
    if j.state.isTerminal then (j, [])
    else
      let p := stepJob j
      let q := runJob n p.1
      (q.1, p.2 ++ q.2)

/-- A terminal job never moves or invokes anything. -/
lemma runJob_terminal (j : Job) (h : j.state.isTerminal = true) :
    ∀ n, runJob n j = (j, []) := by
  intro n
  cases n <;> simp [runJob, h]

/-- C8. If a cancellation request arrives before a job's first pipeline stage
begins (the job is still `Queued` with its cancellation flag set), the job
transitions directly from `Queued` to `Cancelled`, and no pipeline stage
(preprocess, segment, recognize, aggregate) is ever invoked for it, however
long the dispatcher keeps stepping it. -/
theorem cancel_before_first_stage (j : Job) (hq : j.state = .Queued)
    (hc : j.cancelRequested = true) :
    stepJob j = ({ j with state := .Cancelled }, []) ∧
    (∀ n, (runJob n j).2 = []) ∧
    (∀ n, 1 ≤ n → (runJob n j).1.state = .Cancelled) := by
  have hnt : j.state.isTerminal = false := by rw [hq]; rfl
  have hstep : stepJob j = ({ j with state := .Cancelled }, []) := by
    simp [stepJob, hnt, hc]
  have hterm : ({ j with state := JobState.Cancelled } : Job).state.isTerminal
      = true := rfl
  refine ⟨hstep, ?_, ?_⟩
  · intro n
    cases n with
    | zero => rfl
    | succ m => simp [runJob, hnt, hstep, runJob_terminal _ hterm]
  · intro n hn
    cases n with
    | zero => exact absurd hn (by decide)
    | succ m => simp [runJob, hnt, hstep, runJob_terminal _ hterm]

/-- A concrete queued job whose cancellation was requested before any stage
began. -/
def queuedCancelledJob : Job :=
  { id := 0, state := .Queued, image := validRaw, cancelRequested := true }

/-- Witness for C8 at `queuedCancelledJob`, stepped three times. -/
theorem cancel_before_first_stage_witness :
    (runJob 3 queuedCancelledJob).2 = [] ∧
    (runJob 3 queuedCancelledJob).1.state = .Cancelled :=
  ⟨(cancel_before_first_stage queuedCancelledJob rfl rfl).2.1 3,
    (cancel_before_first_stage queuedCancelledJob rfl rfl).2.2 3
      (by decide)⟩

/-- Submit `n` jobs with images `imgs 0, …, imgs (n-1)`, in order. -/
def submitAll (imgs : Nat → RawImage) : Nat → DispatcherState → DispatcherState
  | 0, st => st
  | n + 1, st => (submit (submitAll imgs n st) (imgs n)).2

/-- Modelled from the spec: when a slot frees, the job at the head of the
FIFO queue (the oldest submission) leaves the queue and starts its first
stage (§4.5). -/
def freeSlot (st : DispatcherState) : DispatcherState :=
  if st.running.length < st.limit then
    match st.queue with
    | [] => st
    | id :: rest =>
      { st with
        queue := rest,
        running := st.running ++ [id],
        jobs := updateJob st.jobs id
          (fun j => { j with state := .Preprocessing }) }
  else st

/-- Closed form of the dispatcher state after `N` submissions into an empty
dispatcher with limit `L`: jobs `0, …, N-1` in submission order, the first
`min L N` of them running in `Preprocessing`, the rest queued in FIFO
order. -/
lemma submitAll_spec (imgs : Nat → RawImage) (L : Nat) :
    ∀ N, submitAll imgs N (emptyDispatcher L) =
      { limit := L,
        jobs := (List.range N).map (fun i =>
          mkJob i (if i < L then JobState.Preprocessing else JobState.Queued)
            (imgs i)),
        running := List.range (min L N),
        queue := (List.range N).drop L } := by
  intro N
  induction N with
  | zero => simp [submitAll, emptyDispatcher]
  | succ n ih =>
    have hstep : submitAll imgs (n + 1) (emptyDispatcher L) =
        (submit (submitAll imgs n (emptyDispatcher L)) (imgs n)).2 := rfl
    rw [hstep, ih]
    by_cases h : n < L
    · have hmin : min L n = n := min_eq_right (Nat.le_of_lt h)
      have hmin2 : min L (n + 1) = n + 1 := min_eq_right h
      have hq1 : (List.range n).drop L = [] :=
        List.drop_eq_nil_of_le (by simpa using Nat.le_of_lt h)
      have hq2 : (List.range (n + 1)).drop L = [] :=
        List.drop_eq_nil_of_le (by simpa using h)
      simp [submit, hmin, hmin2, h, hq1, hq2, List.range_succ]
      all_goals omega
    · have hL : L ≤ n := Nat.le_of_not_lt h
      have hmin : min L n = L := min_eq_left hL
      have hmin2 : min L (n + 1) = L := min_eq_left (Nat.le_succ_of_le hL)
      simp [submit, hmin, hmin2, h, List.range_succ]
      rw [List.drop_append_of_le_length (by simpa using hL)]

/-- Counting the naturals below `L` among `0, …, N-1`. -/
lemma countP_range_lt (L : Nat) :
    ∀ N, (List.range N).countP (fun i => decide (i < L)) = min L N := by
  intro N
  induction N with
  | zero => simp
  | succ n ih =>
    rw [List.range_succ, List.countP_append, ih]
    by_cases h : n < L
    · have hmin : min L n = n := min_eq_right (Nat.le_of_lt h)
      have hmin2 : min L (n + 1) = n + 1 := min_eq_right h
      simp [List.countP_cons, h, hmin, hmin2]
    · have hL : L ≤ n := Nat.le_of_not_lt h
      have hmin : min L n = L := min_eq_left hL
      have hmin2 : min L (n + 1) = L := min_eq_left (Nat.le_succ_of_le hL)
      simp [List.countP_cons, h, hmin, hmin2]

/-- Counting the naturals at least `L` among `0, …, N-1`. -/
lemma countP_range_not_lt (L : Nat) :
    ∀ N, (List.range N).countP (fun i => !decide (i < L)) = N - min L N := by
  intro N
  induction N with
  | zero => simp
  | succ n ih =>
    rw [List.range_succ, List.countP_append, ih]
    by_cases h : n < L
    · have hmin : min L n = n := min_eq_right (Nat.le_of_lt h)
      have hmin2 : min L (n + 1) = n + 1 := min_eq_right h
      simp [List.countP_cons, h, hmin, hmin2]
    · have hL : L ≤ n := Nat.le_of_not_lt h
      have hmin : min L n = L := min_eq_left hL
      have hmin2 : min L (n + 1) = L := min_eq_left (Nat.le_succ_of_le hL)
      simp [List.countP_cons, h, hmin, hmin2]
      omega

/-- C9. Submitting `N > limit` jobs to an empty dispatcher leaves exactly
`limit` of them in `Preprocessing` (the first `limit` submissions, in order)
and the other `N - limit` in `Queued`, with the waiting jobs queued in FIFO
submission order; and whenever a slot frees, the head of the queue — the
oldest queued submission — is the job that starts. -/
theorem submit_fifo_concurrency (imgs : Nat → RawImage) (L N : Nat)
    (h : L < N) :
    ((submitAll imgs N (emptyDispatcher L)).jobs.countP
      (fun j => decide (j.state = JobState.Preprocessing))) = L ∧
    ((submitAll imgs N (emptyDispatcher L)).jobs.countP
      (fun j => decide (j.state = JobState.Queued))) = N - L ∧
    (submitAll imgs N (emptyDispatcher L)).running = List.range L ∧
    (submitAll imgs N (emptyDispatcher L)).queue = (List.range N).drop L ∧
    (∀ st : DispatcherState, ∀ id : Nat, ∀ rest : List Nat,
      st.queue = id :: rest → st.running.length < st.limit →
      (freeSlot st).queue = rest ∧
      (freeSlot st).running = st.running ++ [id]) := by
  have hmin : min L N = L := min_eq_left (Nat.le_of_lt h)
  refine ⟨?_, ?_, ?_, ?_, ?_⟩
  · rw [submitAll_spec, List.countP_map]
    rw [List.countP_congr ?_ , countP_range_lt L N, hmin]
    intro i _
    by_cases hi : i < L <;> simp [mkJob, Function.comp_def, hi]
  · rw [submitAll_spec, List.countP_map]
    rw [List.countP_congr ?_ , countP_range_not_lt L N, hmin]
    intro i _
    by_cases hi : i < L <;> simp [mkJob, Function.comp_def, hi]
  · rw [submitAll_spec, hmin]
  · rw [submitAll_spec]
  · intro st id rest hq hlt
    constructor <;> simp [freeSlot, hq, hlt]

/-- Witness for C9 with limit 1 and three submissions: one job is
preprocessing, two wait in FIFO order. -/
theorem submit_fifo_concurrency_witness :
    (1 : Nat) < 3 ∧
    ((submitAll (fun _ => validRaw) 3 (emptyDispatcher 1)).jobs.countP
      (fun j => decide (j.state = JobState.Preprocessing))) = 1 ∧
    (submitAll (fun _ => validRaw) 3 (emptyDispatcher 1)).queue = [1, 2] :=
  ⟨by decide,
    (submit_fifo_concurrency (fun _ => validRaw) 1 3 (by decide)).1,
    ((submit_fifo_concurrency (fun _ => validRaw) 1 3
        (by decide)).2.2.2.1).trans (by decide)⟩

/-! ## The repository's entry point

Shallow embedding of `src/app/src-tauri/src/main.rs`, the only source file
under `src/`. -/

/-- The statement forms occurring in the embedded source: the body of `main`
consists solely of a call to an external function. -/
inductive RustStmt
  | callExtern (callee : String) (args : List String)
  deriving DecidableEq, Repr

/-- The body of `main` from `src/app/src-tauri/src/main.rs`: the single
expression statement `gui_lib::run()`. -/
def mainBody : List RustStmt := [RustStmt.callExtern "gui_lib::run" []]

/-- The trace of external calls an execution of a statement list performs. -/
def callsOf (body : List RustStmt) : List (String × List String) :=
  body.map (fun s => match s with | .callExtern f a => (f, a))

/-- The functions defined in this repository's `src/` tree: `main.rs`
declares only `main`. -/
def srcDefinedFunctions : List String := ["main"]

/-- The operations and data types of the specified OCR core (§2–§4). -/
def ocrCoreNames : List String :=
  ["normalize", "segment", "recognize", "aggregate", "submit", "cancel",
    "subscribe", "ImagePreprocessor", "LayoutSegmenter", "RecognitionEngine",
    "ResultAggregator", "JobDispatcher", "RawImage", "NormalizedImage",
    "TextRegion", "RecognitionCandidate", "OcrDocument", "Job"]

/-- C10. The process entry point `main` performs no computation of its own:
its body is the single statement calling the external `gui_lib::run` with no
arguments, so every execution's trace is exactly that one argument-free
external call; and no name of the specified OCR core (pipeline stages,
JobDispatcher, data model) is among the functions defined in this
repository's source. -/
theorem main_delegates_to_gui_lib :
    callsOf mainBody = [("gui_lib::run", [])] ∧
    mainBody.length = 1 ∧
    ocrCoreNames.all (fun n => !srcDefinedFunctions.contains n) = true := by
  refine ⟨rfl, rfl, ?_⟩
  decide

end OcrCore
